/-
Verification of the tiny-loop agent-loop engine (crates/tiny-loop).

Shallow embedding of the conversation data model (`types/message.rs`,
`types/llm.rs`), the two tool-executor strategies
(`tool/executor/parallel.rs`, `tool/executor/sequential.rs`), the default
`Tool::call_batch` (`tool.rs`), the agent step (`agent.rs`), the
OpenAI-compatible client's retry loop, non-streaming response handling and
streaming assembly (`llm/openai.rs`), and JSON-schema metadata stripping
(`types/tool.rs`, `tool.rs`).

Wall-clock telemetry (`SystemTime` timestamps, `Duration` elapsed) is real
time and is dropped from the embedding; network transports, the serde JSON
codec and the tokio scheduler are external collaborators and are passed in
as oracle parameters.  The nondeterministic iteration order of Rust's
`HashMap` in the parallel executor is modelled as first-occurrence key
order; every theorem stated about the parallel executor is
order-insensitive (lengths, multiset/permutation facts, membership).
-/
import Mathlib

namespace TinyLoop

/-! ## Data model (`types/message.rs`, `types/llm.rs`) -/

/-- `FunctionCall` from `types/message.rs`: function name plus JSON-encoded
arguments. -/
structure FunctionCall where
  name : String
  arguments : String
  deriving DecidableEq, Repr

/-- `ToolCall` from `types/message.rs`: provider-issued id, call type
(currently only "function") and the function call details. -/
structure ToolCall where
  id : String
  call_type : String
  function : FunctionCall
  deriving DecidableEq, Repr

/-- `ToolMessage` body from `types/message.rs`. -/
structure ToolMessage where
  content : String
  tool_call_id : String
  deriving DecidableEq, Repr

/-- `AssistantMessage` body from `types/message.rs`: content plus optional
tool calls (absent or empty means no tool_calls field on the wire). -/
structure AssistantMessage where
  content : String
  tool_calls : Option (List ToolCall)
  deriving DecidableEq, Repr

/-- `Message` from `types/message.rs`: tagged union over conversation
roles.  The `Custom` role's arbitrary JSON body is modelled as its raw
text. -/
inductive Message where
  | system (content : String)
  | user (content : String)
  | assistant (msg : AssistantMessage)
  | tool (msg : ToolMessage)
  | custom (role : String) (body : String)
  deriving DecidableEq, Repr

/-- `FinishReason` from `types/llm.rs`. -/
inductive FinishReason where
  | stop
  | length
  | tool_calls
  | content_filter
  | custom (reason : String)
  deriving DecidableEq, Repr

/-- `LLMResponse`: the assistant message and the finish reason returned by
one LLM call (`llm/openai.rs` builds it from the first choice). -/
structure LLMResponse where
  message : AssistantMessage
  finish_reason : FinishReason
  deriving DecidableEq, Repr

/-! ## Tool registry and the two executor strategies

A registered tool's `call` takes the JSON argument text and returns the
result text (`tool.rs`: `call` never fails, errors are textual).  The
registry (`HashMap<String, Box<dyn Tool>>` in both executors) is modelled
as a lookup function, with `HashMap::insert` semantics for `add`. -/

/-- A registered tool: `Tool::call` from `tool.rs`, with the tool body an
arbitrary pure function of the argument text. -/
structure Tool where
  call : String → String

/-- The tool registry: name-keyed lookup, modelling
`HashMap::get` in the executors. -/
def Registry : Type := String → Option Tool

/-- `ToolExecutor::add` (`HashMap::insert`): last registration for a name
wins. -/
def Registry.add (r : Registry) (name : String) (t : Tool) : Registry :=
  fun n => if n = name then some t else r n

/-- The empty registry. -/
def Registry.empty : Registry := fun _ => none

/-- Default `Tool::call_batch` (`tool.rs` lines 53-65): map `call` over
each request, pairing each result with the request's id. -/
def Tool.call_batch (t : Tool) (args : List ToolCall) : List ToolMessage :=
  args.map fun call =>
    { content := t.call call.function.arguments, tool_call_id := call.id }

/-- The synthesized not-found content `"Tool '<name>' not found"` used by
both executor strategies. -/
def notFoundContent (name : String) : String :=
  "Tool '" ++ name ++ "' not found"

/-- First-occurrence-order deduplication of the tool names, modelling the
key set of the grouping `HashMap` in `ParallelExecutor::execute`. -/
def dedupKeys : List String → List String
  | [] => []
  | k :: ks => k :: (dedupKeys ks).filter (fun x => x ≠ k)

/-- One group's results in `ParallelExecutor::execute`: dispatch via the
tool's `call_batch` when the name is registered, otherwise synthesize one
not-found `ToolMessage` per call in the group. -/
def groupResults (tools : Registry) (name : String)
    (group : List ToolCall) : List ToolMessage :=
  match tools name with
  | some t => t.call_batch group
  | none => group.map fun call =>
      { content := notFoundContent name, tool_call_id := call.id }

/-- `ParallelExecutor::execute` (`tool/executor/parallel.rs` lines 54-85):
group the calls by tool name (per-group order preserved), run each group
through `groupResults` and flatten all group results. -/
def parallelExecute (tools : Registry) (calls : List ToolCall) :
    List ToolMessage :=
  let keys := dedupKeys (calls.map (fun c => c.function.name))
  (keys.map fun name =>
    groupResults tools name
      (calls.filter (fun c => c.function.name = name))).flatten

/-- One call's result in `SequentialExecutor::execute`: await the tool's
`call`, or synthesize the not-found message when unregistered. -/
def execOne (tools : Registry) (call : ToolCall) : ToolMessage :=
  match tools call.function.name with
  | some t =>
      { content := t.call call.function.arguments
        tool_call_id := call.id }
  | none =>
      { content := notFoundContent call.function.name
        tool_call_id := call.id }

/-- `SequentialExecutor::execute` (`tool/executor/sequential.rs` lines
53-74): iterate the calls strictly in order, awaiting each `call` fully
before starting the next; unknown names get the same synthesized
not-found result. -/
def sequentialExecute (tools : Registry) (calls : List ToolCall) :
    List ToolMessage :=
  calls.map (execOne tools)

/-! ## Grouping lemmas for the parallel executor -/

theorem mem_dedupKeys {k : String} : ∀ {ks : List String},
    k ∈ dedupKeys ks ↔ k ∈ ks := by
  intro ks
  induction ks with
  | nil => simp [dedupKeys]
  | cons a as ih =>
    by_cases h : k = a
    · subst h; simp [dedupKeys]
    · simp [dedupKeys, List.mem_filter, h, ih]

theorem dedupKeys_nodup : ∀ (ks : List String), (dedupKeys ks).Nodup := by
  intro ks
  induction ks with
  | nil => simp [dedupKeys]
  | cons a as ih =>
    refine List.Nodup.cons ?_ (List.Nodup.filter _ ih)
    intro hmem
    rcases List.mem_filter.mp hmem with ⟨_, hne⟩
    simp at hne

/-- Partitioning a list by a nodup covering key list yields a permutation
of the original list. -/
theorem flatMap_filter_perm {α : Type} (key : α → String) :
    ∀ (keys : List String) (l : List α), keys.Nodup →
      (∀ a ∈ l, key a ∈ keys) →
      (keys.flatMap fun k => l.filter (fun a => key a = k)).Perm l := by
  intro keys
  induction keys with
  | nil =>
    intro l _ hcover
    cases l with
    | nil => simp
    | cons a as => exact absurd (hcover a (by simp)) (by simp)
  | cons k ks ih =>
    intro l hnd hcover
    have hrest : ∀ a ∈ l.filter (fun a => !(decide (key a = k))),
        key a ∈ ks := by
      intro a ha
      rcases List.mem_filter.mp ha with ⟨hal, hne⟩
      rcases List.mem_cons.mp (hcover a hal) with h | h
      · simp [h] at hne
      · exact h
    have heq : (ks.flatMap fun k' => l.filter (fun a => key a = k'))
        = ks.flatMap fun k' =>
            (l.filter (fun a => !(decide (key a = k)))).filter
              (fun a => key a = k') := by
      refine List.flatMap_congr ?_
      intro k' hk'
      have hkk' : k' ≠ k := by
        rintro rfl
        exact (List.nodup_cons.mp hnd).1 hk'
      rw [List.filter_filter]
      refine (List.filter_congr ?_).symm
      intro a _
      by_cases h : key a = k'
      · simp [h, hkk']
      · simp [h]
    have ihp := ih (l.filter (fun a => !(decide (key a = k))))
      (List.nodup_cons.mp hnd).2 hrest
    rw [List.flatMap_cons, heq]
    exact (List.Perm.append_left _ ihp).trans
      (List.filter_append_perm (fun a => key a = k) l)

/-- Each group's results (found or not-found branch) carry exactly the
group's ids, in group order. -/
theorem groupResults_ids (tools : Registry) (name : String)
    (group : List ToolCall) :
    (groupResults tools name group).map (fun m => m.tool_call_id)
      = group.map (fun c => c.id) := by
  unfold groupResults
  cases tools name with
  | none => simp
  | some t => simp [Tool.call_batch]

/-- The parallel executor's output ids are a permutation of the input
ids. -/
theorem parallelExecute_ids_perm (tools : Registry) (calls : List ToolCall) :
    ((parallelExecute tools calls).map (fun m => m.tool_call_id)).Perm
      (calls.map (fun c => c.id)) := by
  unfold parallelExecute
  rw [List.map_flatten, List.map_map]
  have hmap : ((dedupKeys (calls.map (fun c => c.function.name))).map
      ((fun l : List ToolMessage => l.map (fun m => m.tool_call_id)) ∘
        (fun name => groupResults tools name
          (calls.filter (fun c => c.function.name = name)))))
      = (dedupKeys (calls.map (fun c => c.function.name))).map
          (fun name => (calls.filter
            (fun c => c.function.name = name)).map (fun c => c.id)) := by
    refine List.map_congr_left ?_
    intro name _
    exact groupResults_ids tools name _
  rw [hmap]
  have hflat : ((dedupKeys (calls.map (fun c => c.function.name))).map
        (fun name => (calls.filter
          (fun c => c.function.name = name)).map (fun c => c.id))).flatten
      = ((dedupKeys (calls.map (fun c => c.function.name))).flatMap
          (fun name => calls.filter
            (fun c => c.function.name = name))).map (fun c => c.id) := by
    rw [List.map_flatMap, List.flatMap]
  rw [hflat]
  have hperm := flatMap_filter_perm (fun c : ToolCall => c.function.name)
    (dedupKeys (calls.map (fun c => c.function.name))) calls
    (dedupKeys_nodup _)
    (fun c hc => mem_dedupKeys.mpr (List.mem_map_of_mem _ hc))
  exact hperm.map _

/-- Each sequential result carries its call's id. -/
theorem execOne_id (tools : Registry) (call : ToolCall) :
    (execOne tools call).tool_call_id = call.id := by
  unfold execOne
  cases tools call.function.name <;> rfl

/-- The sequential executor's output ids equal the input ids. -/
theorem sequentialExecute_ids (tools : Registry) (calls : List ToolCall) :
    (sequentialExecute tools calls).map (fun m => m.tool_call_id)
      = calls.map (fun c => c.id) := by
  unfold sequentialExecute
  rw [List.map_map]
  refine List.map_congr_left ?_
  intro c _
  exact execOne_id tools c

/-! ## The agent step (`agent.rs` lines 273-321)

`Agent::step` performs one LLM call, appends the assistant turn to the
history, executes the tool calls (when the assistant turn carries any)
and appends their result turns via `add_batch`, then returns
`Some(content)` exactly when the finish reason is not `ToolCalls`.
The LLM call is external I/O: the step is modelled as a function of the
response (or error) the `LLMProvider` produced, and the executor is the
`execute` function of whichever strategy the agent holds.  `History::add`
and the default `History::add_batch` (`history.rs`, `InfiniteHistory`)
append in order, so the history is a `List Message`. -/

/-- The successful branch of `Agent::step`: append the assistant turn,
execute and append the tool-result turns when `tool_calls` is `Some`, and
report the final answer unless the finish reason is `ToolCalls`.  Returns
(new history, answer). -/
def stepOk (exec : List ToolCall → List ToolMessage)
    (history : List Message) (response : LLMResponse) :
    List Message × Option String :=
  let h1 := history ++ [Message.assistant response.message]
  let h2 := match response.message.tool_calls with
    | some calls => h1 ++ (exec calls).map Message.tool
    | none => h1
  if response.finish_reason = FinishReason.tool_calls then (h2, none)
  else (h2, some response.message.content)

/-- `Agent::step` including the `?` on the LLM call: a provider error is
propagated to the caller untouched. -/
def stepWith (exec : List ToolCall → List ToolMessage)
    (history : List Message) (resp : Except String LLMResponse) :
    Except String (List Message × Option String) :=
  match resp with
  | .error e => .error e
  | .ok response => .ok (stepOk exec history response)

/-- `Agent::run` (`agent.rs` lines 325-332): repeat `step` until it
returns an answer.  The sequence of LLM outcomes is an oracle list; `none`
in the first component means the oracle was exhausted with the loop still
running. -/
def runWith (exec : List ToolCall → List ToolMessage)
    (responses : List (Except String LLMResponse))
    (history : List Message) :
    Except String (Option String × List Message) :=
  match responses with
  | [] => .ok (none, history)
  | r :: rs =>
    match stepWith exec history r with
    | .error e => .error e
    | .ok (h', some ans) => .ok (some ans, h')
    | .ok (h', none) => runWith exec rs h'

/-! ## C1: the loop continues iff the finish reason is `ToolCalls` -/

/-- C1: for every agent run, the loop continues to another LLM call iff
the response's finish reason is `ToolCalls`: `step` returns no answer
exactly when `finish_reason = ToolCalls`; for any other finish reason the
run terminates immediately with the assistant turn's `content` as the
returned answer. -/
theorem step_continues_iff_tool_calls
    (exec : List ToolCall → List ToolMessage) (history : List Message)
    (response : LLMResponse)
    (rest : List (Except String LLMResponse)) :
    ((stepOk exec history response).2 = none ↔
      response.finish_reason = FinishReason.tool_calls) ∧
    (response.finish_reason ≠ FinishReason.tool_calls →
      (stepOk exec history response).2 = some response.message.content) ∧
    (response.finish_reason ≠ FinishReason.tool_calls →
      runWith exec (.ok response :: rest) history
        = .ok (some response.message.content,
            (stepOk exec history response).1)) := by
  refine ⟨?_, ?_, ?_⟩
  · unfold stepOk
    by_cases h : response.finish_reason = FinishReason.tool_calls <;>
      simp [h]
  · intro h
    unfold stepOk
    simp [h]
  · intro h
    unfold runWith stepWith
    have h2 : (stepOk exec history response).2
        = some response.message.content := by
      unfold stepOk; simp [h]
    rcases hs : stepOk exec history response with ⟨h', ans⟩
    rw [hs] at h2
    simp at h2
    subst h2
    simp [hs]

/-- Witness for C1 at a concrete response with finish reason `Stop`. -/
theorem step_continues_iff_tool_calls_witness :
    (stepOk (fun _ => []) [Message.user "2+2?"]
      ⟨⟨"4", none⟩, FinishReason.stop⟩).2 = some "4" :=
  (step_continues_iff_tool_calls (fun _ => []) [Message.user "2+2?"]
    ⟨⟨"4", none⟩, FinishReason.stop⟩ []).2.1 (by decide)

/-! ## C5: grouping correctness of the parallel executor -/

/-- C5: given N requests across any set of tool names, the parallel
executor returns exactly N results; the output ids are a permutation of
the input ids (output order need not equal input order), and when the
provider-issued ids are unique within the turn, every input id appears
exactly once among the outputs' `tool_call_id` values. -/
theorem parallel_grouping_correctness (tools : Registry)
    (calls : List ToolCall) :
    (parallelExecute tools calls).length = calls.length ∧
    ((parallelExecute tools calls).map (fun m => m.tool_call_id)).Perm
      (calls.map (fun c => c.id)) ∧
    ((calls.map (fun c => c.id)).Nodup →
      ∀ i ∈ calls.map (fun c => c.id),
        ((parallelExecute tools calls).map
          (fun m => m.tool_call_id)).count i = 1) := by
  have hperm := parallelExecute_ids_perm tools calls
  refine ⟨?_, hperm, ?_⟩
  · have := hperm.length_eq
    simpa using this
  · intro hnodup i hi
    rw [hperm.count_eq]
    exact List.count_eq_one_of_mem hnodup hi

/-- Witness for C5: the spec §8 scenario — two calls to "weather"
(ids "1","3") and one to "search" (id "2") yield 3 results with each id
present once. -/
theorem parallel_grouping_correctness_witness :
    ((parallelExecute
      ((Registry.empty.add "weather" ⟨fun _ => "sunny"⟩).add
        "search" ⟨fun _ => "results"⟩)
      [⟨"1", "function", ⟨"weather", "{}"⟩⟩,
       ⟨"2", "function", ⟨"search", "{}"⟩⟩,
       ⟨"3", "function", ⟨"weather", "{}"⟩⟩]).map
        (fun m => m.tool_call_id)).count "2" = 1 :=
  (parallel_grouping_correctness
    ((Registry.empty.add "weather" ⟨fun _ => "sunny"⟩).add
      "search" ⟨fun _ => "results"⟩)
    [⟨"1", "function", ⟨"weather", "{}"⟩⟩,
     ⟨"2", "function", ⟨"search", "{}"⟩⟩,
     ⟨"3", "function", ⟨"weather", "{}"⟩⟩]).2.2 (by decide) "2" (by decide)

/-- When the assistant turn carries tool calls, the history after `step`
is the old history, the assistant turn, then the executor's results as
Tool turns, whatever the finish reason. -/
theorem stepOk_fst (exec : List ToolCall → List ToolMessage)
    (history : List Message) (response : LLMResponse)
    (calls : List ToolCall)
    (hcalls : response.message.tool_calls = some calls) :
    (stepOk exec history response).1
      = history ++ [Message.assistant response.message]
          ++ (exec calls).map Message.tool := by
  unfold stepOk
  rw [hcalls]
  by_cases h : response.finish_reason = FinishReason.tool_calls <;>
    simp [h]

/-! ## C2: the request/result pairing invariant of `step` -/

/-- C2: for every completed `step` whose response has finish reason
`ToolCalls` and carries tool calls with ids unique within the turn (the
data-model invariant on provider-issued ids), the history after the step
is the old history, then the assistant turn, then — immediately after and
before the next step — one block of Tool turns in which every requested id
has exactly one turn with matching `tool_call_id`, under either executor
strategy. -/
theorem step_pairing_invariant (tools : Registry)
    (history : List Message) (response : LLMResponse)
    (calls : List ToolCall)
    (_hfin : response.finish_reason = FinishReason.tool_calls)
    (hcalls : response.message.tool_calls = some calls)
    (hnodup : (calls.map (fun c => c.id)).Nodup) :
    ((stepOk (parallelExecute tools) history response).1
        = history ++ [Message.assistant response.message]
            ++ (parallelExecute tools calls).map Message.tool ∧
      ∀ c ∈ calls,
        ((parallelExecute tools calls).map
          (fun m => m.tool_call_id)).count c.id = 1) ∧
    ((stepOk (sequentialExecute tools) history response).1
        = history ++ [Message.assistant response.message]
            ++ (sequentialExecute tools calls).map Message.tool ∧
      ∀ c ∈ calls,
        ((sequentialExecute tools calls).map
          (fun m => m.tool_call_id)).count c.id = 1) := by
  refine ⟨⟨stepOk_fst _ _ _ _ hcalls, ?_⟩,
    stepOk_fst _ _ _ _ hcalls, ?_⟩
  · intro c hc
    rw [(parallelExecute_ids_perm tools calls).count_eq]
    exact List.count_eq_one_of_mem hnodup (List.mem_map_of_mem _ hc)
  · intro c hc
    rw [sequentialExecute_ids tools calls]
    exact List.count_eq_one_of_mem hnodup (List.mem_map_of_mem _ hc)

/-- Witness for C2 at the spec §8 scenario response. -/
theorem step_pairing_invariant_witness :
    ((sequentialExecute
      ((Registry.empty.add "weather" ⟨fun _ => "sunny"⟩).add
        "search" ⟨fun _ => "results"⟩)
      [⟨"1", "function", ⟨"weather", "{}"⟩⟩,
       ⟨"2", "function", ⟨"search", "{}"⟩⟩,
       ⟨"3", "function", ⟨"weather", "{}"⟩⟩]).map
        (fun m => m.tool_call_id)).count "3" = 1 :=
  (step_pairing_invariant
    ((Registry.empty.add "weather" ⟨fun _ => "sunny"⟩).add
      "search" ⟨fun _ => "results"⟩)
    []
    ⟨⟨"", some [⟨"1", "function", ⟨"weather", "{}"⟩⟩,
       ⟨"2", "function", ⟨"search", "{}"⟩⟩,
       ⟨"3", "function", ⟨"weather", "{}"⟩⟩]⟩, FinishReason.tool_calls⟩
    [⟨"1", "function", ⟨"weather", "{}"⟩⟩,
     ⟨"2", "function", ⟨"search", "{}"⟩⟩,
     ⟨"3", "function", ⟨"weather", "{}"⟩⟩]
    (by decide) rfl (by decide)).2.2
    ⟨"3", "function", ⟨"weather", "{}"⟩⟩ (by decide)

/-! ## C6: unknown-tool requests become regular not-found results -/

/-- C6: a request whose tool name has no registration yields, under both
executor strategies, a result whose content is exactly
`"Tool '<name>' not found"` and whose `tool_call_id` is the request's id,
independent of the other requests in the batch; the synthesized result is
appended to the history as a regular Tool turn by `step`, never
propagated as an error of the loop. -/
theorem unknown_tool_not_found (tools : Registry) (calls : List ToolCall)
    (c : ToolCall) (hc : c ∈ calls)
    (hno : tools c.function.name = none) :
    (∃ m ∈ parallelExecute tools calls,
      m.tool_call_id = c.id ∧
        m.content = "Tool '" ++ c.function.name ++ "' not found") ∧
    (∃ m ∈ sequentialExecute tools calls,
      m.tool_call_id = c.id ∧
        m.content = "Tool '" ++ c.function.name ++ "' not found") ∧
    (∀ (history : List Message) (response : LLMResponse),
      response.message.tool_calls = some calls →
      ∃ m, m.tool_call_id = c.id ∧
        m.content = "Tool '" ++ c.function.name ++ "' not found" ∧
        Message.tool m ∈ (stepOk (parallelExecute tools)
          history response).1) := by
  have hpar : ({ content := notFoundContent c.function.name
                 tool_call_id := c.id : ToolMessage })
      ∈ parallelExecute tools calls := by
    unfold parallelExecute
    rw [List.mem_flatten]
    refine ⟨groupResults tools c.function.name
      (calls.filter (fun x => x.function.name = c.function.name)), ?_, ?_⟩
    · exact List.mem_map_of_mem _
        (mem_dedupKeys.mpr (List.mem_map_of_mem _ hc))
    · unfold groupResults
      rw [hno]
      exact List.mem_map_of_mem _
        (List.mem_filter.mpr ⟨hc, by simp⟩)
  have hseq : ({ content := notFoundContent c.function.name
                 tool_call_id := c.id : ToolMessage })
      ∈ sequentialExecute tools calls := by
    have : execOne tools c
        = { content := notFoundContent c.function.name
            tool_call_id := c.id } := by
      unfold execOne
      rw [hno]
    exact this ▸ List.mem_map_of_mem _ hc
  refine ⟨⟨_, hpar, rfl, rfl⟩, ⟨_, hseq, rfl, rfl⟩, ?_⟩
  intro history response hcalls
  refine ⟨{ content := notFoundContent c.function.name
            tool_call_id := c.id }, rfl, rfl, ?_⟩
  rw [stepOk_fst _ _ _ _ hcalls]
  exact List.mem_append_right _ (List.mem_map_of_mem _ hpar)

/-- Witness for C6: a batch with one registered and one unregistered tool
name. -/
theorem unknown_tool_not_found_witness :
    ∃ m ∈ sequentialExecute (Registry.empty.add "weather" ⟨fun _ => "ok"⟩)
      [⟨"1", "function", ⟨"weather", "{}"⟩⟩,
       ⟨"2", "function", ⟨"ghost", "{}"⟩⟩],
      m.tool_call_id = "2" ∧ m.content = "Tool 'ghost' not found" :=
  (unknown_tool_not_found (Registry.empty.add "weather" ⟨fun _ => "ok"⟩)
    [⟨"1", "function", ⟨"weather", "{}"⟩⟩,
     ⟨"2", "function", ⟨"ghost", "{}"⟩⟩]
    ⟨"2", "function", ⟨"ghost", "{}"⟩⟩ (by decide) rfl).2.1

/-! ## The OpenAI-compatible client (`llm/openai.rs`)

`OpenAIProvider::call` (lines 251-286) is a retry loop around
`call_once`: `attempt` starts at 0 and is incremented at the top of each
iteration; a success returns immediately; an error returns when
`attempt > max_retries` and otherwise sleeps `retry_delay_ms` and loops.
`call_once` (lines 290-345) sends the request (transport), bails on a
non-2xx status, and in the non-streaming path parses the body, indexes
`choices[0]` (a panic when `choices` is empty) and requires an Assistant
message.  The transport and the serde JSON codec are external: they enter
the model as an attempt-indexed reply oracle and a parse function. -/

/-- The error taxonomy of one `call_once`: transport failure, non-2xx
status, or a response shape the client cannot parse (missing/odd fields,
non-Assistant role). -/
inductive CallError where
  | transport (msg : String)
  | httpStatus (status : Nat) (body : String)
  | protocol (msg : String)
  deriving DecidableEq, Repr

/-- Outcome of one `call_once`, distinguishing a Rust panic (which
unwinds past the retry loop) from a returned error (which feeds it). -/
inductive CallOutcome (A : Type) where
  | ok (value : A)
  | failed (e : CallError)
  | panicked (msg : String)
  deriving DecidableEq, Repr

/-- Observable events of the retry loop: the numbered attempts and the
`tokio::time::sleep(retry_delay_ms)` between consecutive attempts. -/
inductive RetryEvent where
  | attempt (n : Nat)
  | sleep (ms : Nat)
  deriving DecidableEq, Repr

/-- The retry loop of `OpenAIProvider::call` (lines 257-285), recursing
on the remaining retry budget: at attempt number `a` (1-based, as in the
source where `attempt += 1` precedes the call), a success or a panic ends
the loop; an error ends it when the budget is exhausted (the source
guard `attempt > max_retries`) and otherwise sleeps and retries.  Returns
the event trace and the final outcome. -/
def callRetryGo {A : Type} (delay : Nat)
    (callOnce : Nat → CallOutcome A) :
    Nat → Nat → List RetryEvent × CallOutcome A
  | a, 0 => ([RetryEvent.attempt a], callOnce a)
  | a, r + 1 =>
    match callOnce a with
    | CallOutcome.failed _ =>
      let rest := callRetryGo delay callOnce (a + 1) r
      (RetryEvent.attempt a :: RetryEvent.sleep delay :: rest.1, rest.2)
    | out => ([RetryEvent.attempt a], out)

/-- `OpenAIProvider::call`: run the retry loop from attempt 1 with budget
`max_retries`. -/
def callRetry {A : Type} (max_retries delay : Nat)
    (callOnce : Nat → CallOutcome A) : List RetryEvent × CallOutcome A :=
  callRetryGo delay callOnce 1 max_retries

/-- `Choice` from the chat-completions response body. -/
structure Choice where
  message : Message
  finish_reason : FinishReason
  deriving DecidableEq, Repr

/-- `ChatResponse`: the parsed non-streaming response body. -/
structure ChatResponse where
  choices : List Choice
  deriving DecidableEq, Repr

/-- What the transport returns for one attempt: a network failure or an
HTTP response with a status code and a body. -/
inductive TransportReply (γ : Type) where
  | netErr (msg : String)
  | http (status : Nat) (body : γ)

/-- `reqwest::StatusCode::is_success`: 2xx. -/
def statusSuccess (status : Nat) : Bool :=
  200 ≤ status && status < 300

/-- The non-streaming `OpenAIProvider::call_once` (lines 290-345) over an
abstract transport reply and serde parse function: transport failures and
non-2xx statuses are returned as errors; a 2xx body that does not parse
is a protocol error; a parsed body is read at `choices[0]` — a panic when
`choices` is empty, exactly as the Rust indexing — and its message must
be an Assistant message. -/
def call_once {γ : Type} (parseChat : γ → Option ChatResponse)
    (reply : TransportReply γ) : CallOutcome LLMResponse :=
  match reply with
  | TransportReply.netErr m => CallOutcome.failed (CallError.transport m)
  | TransportReply.http status body =>
    if statusSuccess status then
      match parseChat body with
      | none =>
        CallOutcome.failed (CallError.protocol "Failed to parse response")
      | some cr =>
        match cr.choices.get? 0 with
        | none => CallOutcome.panicked "index out of bounds"
        | some choice =>
          match choice.message with
          | Message.assistant msg =>
            CallOutcome.ok ⟨msg, choice.finish_reason⟩
          | _ =>
            CallOutcome.failed
              (CallError.protocol "Expected Assistant message")
    else CallOutcome.failed (CallError.httpStatus status "")

/-- Unfolding `call_once` on a 200 response: the 2xx branch parses the
body and reads `choices[0]`. -/
theorem call_once_200 {γ : Type} (parseChat : γ → Option ChatResponse)
    (body : γ) :
    call_once parseChat (TransportReply.http 200 body)
      = match parseChat body with
        | none =>
          CallOutcome.failed (CallError.protocol "Failed to parse response")
        | some cr =>
          match cr.choices.get? 0 with
          | none => CallOutcome.panicked "index out of bounds"
          | some choice =>
            match choice.message with
            | Message.assistant msg =>
              CallOutcome.ok ⟨msg, choice.finish_reason⟩
            | _ =>
              CallOutcome.failed
                (CallError.protocol "Expected Assistant message") := rfl

/-- The whole `OpenAIProvider::call` with the transport modelled as an
attempt-indexed reply oracle. -/
def providerCall {γ : Type} (max_retries delay : Nat)
    (parseChat : γ → Option ChatResponse)
    (replies : Nat → TransportReply γ) :
    List RetryEvent × CallOutcome LLMResponse :=
  callRetry max_retries delay (fun a => call_once parseChat (replies a))

/-- The configuration defaults set by `OpenAIProvider::new` (lines
106-117). -/
structure OpenAIProviderConfig where
  base_url : String
  api_key : String
  model : String
  max_retries : Nat
  retry_delay_ms : Nat
  deriving DecidableEq, Repr

/-- `OpenAIProvider::new`. -/
def OpenAIProvider.new : OpenAIProviderConfig :=
  { base_url := "https://api.openai.com/v1"
    api_key := ""
    model := "gpt-4o"
    max_retries := 3
    retry_delay_ms := 1000 }

/-- The trace of a run whose every attempt fails: attempts `a`,
`a+1`, ..., `a+r`, with exactly one sleep between consecutive attempts
and none after the last. -/
def allFailTrace (delay : Nat) : Nat → Nat → List RetryEvent
  | a, 0 => [RetryEvent.attempt a]
  | a, r + 1 =>
    RetryEvent.attempt a :: RetryEvent.sleep delay ::
      allFailTrace delay (a + 1) r

/-- Recognizer for attempt events. -/
def isAttempt : RetryEvent → Bool
  | RetryEvent.attempt _ => true
  | _ => false

/-- Recognizer for sleep events. -/
def isSleep : RetryEvent → Bool
  | RetryEvent.sleep _ => true
  | _ => false

theorem allFailTrace_counts (delay : Nat) :
    ∀ (r a : Nat), (allFailTrace delay a r).countP isAttempt = r + 1 ∧
      (allFailTrace delay a r).countP isSleep = r := by
  intro r
  induction r with
  | zero => intro a; simp [allFailTrace, List.countP_cons, isAttempt, isSleep]
  | succ n ih =>
    intro a
    have := ih (a + 1)
    simp [allFailTrace, List.countP_cons, isAttempt, isSleep, this.1,
      this.2]

/-- When every attempt fails, the retry loop from attempt `a` with budget
`r` produces the full trace and surfaces the last attempt's error. -/
theorem callRetryGo_allFail {A : Type} (delay : Nat)
    (callOnce : Nat → CallOutcome A) (err : Nat → CallError)
    (hfail : ∀ n, callOnce n = CallOutcome.failed (err n)) :
    ∀ (r a : Nat), callRetryGo delay callOnce a r
      = (allFailTrace delay a r, CallOutcome.failed (err (a + r))) := by
  intro r
  induction r with
  | zero =>
    intro a
    simp [callRetryGo, allFailTrace, hfail a]
  | succ n ih =>
    intro a
    have step : callRetryGo delay callOnce a (n + 1)
        = (RetryEvent.attempt a :: RetryEvent.sleep delay ::
            (callRetryGo delay callOnce (a + 1) n).1,
           (callRetryGo delay callOnce (a + 1) n).2) := by
      simp [callRetryGo, hfail a]
    rw [step, ih (a + 1), show a + 1 + n = a + (n + 1) from by omega]
    rfl

/-! ## C3: the retry bound on an always-failing transport -/

/-- C3: when the transport fails on every attempt, `call` makes exactly
`max_retries + 1` attempts, with exactly one `retry_delay_ms` sleep
between consecutive attempts (the trace is attempt 1, sleep, attempt 2,
..., sleep, attempt `max_retries + 1`), and surfaces the last attempt's
error; `OpenAIProvider::new` defaults `max_retries` to 3 and
`retry_delay_ms` to 1000. -/
theorem retry_bound {γ : Type} (max_retries delay : Nat)
    (parseChat : γ → Option ChatResponse)
    (replies : Nat → TransportReply γ) (msg : Nat → String)
    (hfail : ∀ n, replies n = TransportReply.netErr (msg n)) :
    providerCall max_retries delay parseChat replies
      = (allFailTrace delay 1 max_retries,
         CallOutcome.failed (CallError.transport (msg (1 + max_retries)))) ∧
    (providerCall max_retries delay parseChat replies).1.countP isAttempt
      = max_retries + 1 ∧
    (providerCall max_retries delay parseChat replies).1.countP isSleep
      = max_retries ∧
    OpenAIProvider.new.max_retries = 3 ∧
    OpenAIProvider.new.retry_delay_ms = 1000 := by
  have heq : providerCall max_retries delay parseChat replies
      = (allFailTrace delay 1 max_retries,
         CallOutcome.failed (CallError.transport (msg (1 + max_retries)))) := by
    unfold providerCall callRetry
    exact callRetryGo_allFail delay _
      (fun n => CallError.transport (msg n))
      (fun n => by rw [hfail n]; rfl) max_retries 1
  refine ⟨heq, ?_, ?_, rfl, rfl⟩
  · rw [heq]
    exact (allFailTrace_counts delay max_retries 1).1
  · rw [heq]
    exact (allFailTrace_counts delay max_retries 1).2

/-- Witness for C3: a transport that always fails, at the default
configuration (3 retries, 1000 ms delay): 4 attempts, 3 sleeps. -/
theorem retry_bound_witness :
    (providerCall 3 1000 (fun _ : Unit => none)
      (fun _ => TransportReply.netErr "connection refused")).1.countP
        isAttempt = 4 :=
  (retry_bound 3 1000 (fun _ : Unit => none)
    (fun _ => TransportReply.netErr "connection refused")
    (fun _ => "connection refused") (fun _ => rfl)).2.1

/-! ## C4: are protocol errors retried?

The claim says a 2xx response whose body the client cannot parse is
surfaced immediately without retrying.  In the source, `call` matches on
the result of `call_once` without inspecting the error: *every* `Err` —
transport, non-2xx, or parse/protocol — feeds the retry loop (lines
274-284), so an unparseable 2xx body is retried `max_retries` times like
a transport failure. -/

/-- Counterexample to C4: a transport that always answers 200 with a body
the parse function rejects.  At the default settings the client makes 4
attempts with 3 sleeps — the trace is not the single-attempt trace the
claim requires — and only then surfaces the protocol error. -/
theorem protocol_error_retried_counterexample :
    (providerCall 3 1000 (fun _ : Unit => none)
        (fun _ => TransportReply.http 200 ()))
      = (allFailTrace 1000 1 3,
         CallOutcome.failed (CallError.protocol "Failed to parse response"))
    ∧ (providerCall 3 1000 (fun _ : Unit => none)
        (fun _ => TransportReply.http 200 ())).1.countP isAttempt = 4
    ∧ (providerCall 3 1000 (fun _ : Unit => none)
        (fun _ => TransportReply.http 200 ())).1
      ≠ [RetryEvent.attempt 1] := by
  refine ⟨?_, by decide, by decide⟩
  decide

/-- C4 as amended: the retry loop does not inspect the error kind — a 2xx
response whose body the client cannot parse is retried exactly like a
transport failure, and only after `max_retries + 1` failed attempts is
the protocol error surfaced to the caller. -/
theorem protocol_error_retried {γ : Type} (max_retries delay : Nat)
    (parseChat : γ → Option ChatResponse) (body : Nat → γ)
    (hbad : ∀ n, parseChat (body n) = none) :
    providerCall max_retries delay parseChat
        (fun a => TransportReply.http 200 (body a))
      = (allFailTrace delay 1 max_retries,
         CallOutcome.failed
           (CallError.protocol "Failed to parse response")) := by
  unfold providerCall callRetry
  exact callRetryGo_allFail delay _
    (fun _ => CallError.protocol "Failed to parse response")
    (fun n => by rw [call_once_200, hbad n]) max_retries 1

/-- Witness for the amended C4 at the default settings. -/
theorem protocol_error_retried_witness :
    providerCall 3 1000 (fun _ : Unit => none)
        (fun _ => TransportReply.http 200 ())
      = (allFailTrace 1000 1 3,
         CallOutcome.failed
           (CallError.protocol "Failed to parse response")) :=
  protocol_error_retried 3 1000 (fun _ : Unit => none) (fun _ => ())
    (fun _ => rfl)

/-! ## C10: empty `choices` panics the non-streaming path -/

/-- C10: a 2xx non-streaming response that parses as a chat response with
an empty `choices` list makes `call_once` panic on the out-of-bounds
index `choices[0]` instead of returning a protocol error; with a
non-empty `choices` list the indexing never panics. -/
theorem empty_choices_panics {γ : Type}
    (parseChat : γ → Option ChatResponse) (body : γ) (cr : ChatResponse)
    (hparse : parseChat body = some cr) :
    (cr.choices = [] →
      call_once parseChat (TransportReply.http 200 body)
        = CallOutcome.panicked "index out of bounds") ∧
    (cr.choices ≠ [] →
      ∀ msg, call_once parseChat (TransportReply.http 200 body)
        ≠ CallOutcome.panicked msg) := by
  have hred : call_once parseChat (TransportReply.http 200 body)
      = match cr.choices.get? 0 with
        | none => CallOutcome.panicked "index out of bounds"
        | some choice =>
          match choice.message with
          | Message.assistant m =>
            CallOutcome.ok ⟨m, choice.finish_reason⟩
          | _ =>
            CallOutcome.failed
              (CallError.protocol "Expected Assistant message") := by
    rw [call_once_200, hparse]
  constructor
  · intro hempty
    rw [hred, hempty]
    rfl
  · intro hne msg
    rw [hred]
    cases hc : cr.choices with
    | nil => exact absurd hc hne
    | cons choice rest =>
      show ((match choice.message with
        | Message.assistant m =>
          CallOutcome.ok
            { message := m, finish_reason := choice.finish_reason }
        | _ =>
          CallOutcome.failed
            (CallError.protocol "Expected Assistant message"))
          : CallOutcome LLMResponse)
        ≠ CallOutcome.panicked msg
      cases choice.message <;> simp

/-- Witness for C10: a parsed body with `choices: []` panics. -/
theorem empty_choices_panics_witness :
    call_once (fun cr : Option ChatResponse => cr)
        (TransportReply.http 200 (some ⟨[]⟩))
      = CallOutcome.panicked "index out of bounds" :=
  (empty_choices_panics (fun cr : Option ChatResponse => cr)
    (some ⟨[]⟩) ⟨[]⟩ rfl).1 rfl

/-! ## Streaming assembly (`OpenAIProvider::handle_stream`, lines 347-404)

The transport delivers byte chunks; the client appends each chunk to a
string buffer, repeatedly splits off complete lines at `'\n'`, trims
each line, strips the `data: ` prefix, `break`s on `[DONE]`, parses the
payload as a `StreamChunk` (skipping unparseable frames) and folds the
first choice's deltas into accumulators: content is appended and also
pushed to the caller's callback, tool-call fragments are `extend`ed onto
a vector, and a present `finish_reason` overwrites the running value
(initialized to `Stop`).  Text is modelled as `List Char` (the callback
log records the exact fragments passed to the callback, in order); the
serde parse of a frame payload is an oracle parameter.  The inner
`while let Some(line_end) = buffer.find('\n')` loop is run on explicit
fuel `buffer.length`: every iteration removes at least the newline, so
the fuel never runs out before the buffer has no complete line left. -/

/-- `Delta` from `llm/openai.rs`: optional content fragment and optional
tool-call fragments. -/
structure StreamDelta where
  content : Option (List Char)
  tool_calls : Option (List ToolCall)
  deriving DecidableEq, Repr

/-- `StreamChoice` from `llm/openai.rs`. -/
structure StreamChoice where
  delta : StreamDelta
  finish_reason : Option FinishReason
  deriving DecidableEq, Repr

/-- `StreamChunk` from `llm/openai.rs`. -/
structure StreamChunk where
  choices : List StreamChoice
  deriving DecidableEq, Repr

/-- The mutable state of `handle_stream`: the line buffer, the content
accumulator, the tool-call vector, the running finish reason, and the
log of fragments passed to the caller's callback. -/
structure StreamState where
  buffer : List Char
  content : List Char
  tool_calls : List ToolCall
  finish_reason : FinishReason
  callbackLog : List (List Char)
  deriving DecidableEq, Repr

/-- Initial state: empty buffer and accumulators, finish reason `Stop`. -/
def initStream : StreamState :=
  { buffer := [], content := [], tool_calls := []
    finish_reason := FinishReason.stop, callbackLog := [] }

/-- `buffer.find('\n')` + `drain(..=line_end)`: split off the first line
(up to, excluding, the first newline) and the remainder after it. -/
def splitLine : List Char → Option (List Char × List Char)
  | [] => none
  | c :: cs =>
    if c = '\n' then some ([], cs)
    else
      match splitLine cs with
      | none => none
      | some (l, r) => some (c :: l, r)

/-- Rust `str::trim`: drop whitespace from both ends. -/
def trimChars (l : List Char) : List Char :=
  ((l.dropWhile Char.isWhitespace).reverse.dropWhile
    Char.isWhitespace).reverse

/-- The `data: ` frame prefix. -/
def dataTag : List Char := "data: ".data

/-- The terminal `[DONE]` payload. -/
def doneTag : List Char := "[DONE]".data

/-- `strip_prefix`: peel a tag off the front of a line, character by
character. -/
def stripTag : List Char → List Char → Option (List Char)
  | [], l => some l
  | _ :: _, [] => none
  | t :: ts, c :: cs => if c = t then stripTag ts cs else none

/-- `line.strip_prefix("data: ")`. -/
def stripDataTag (line : List Char) : Option (List Char) :=
  stripTag dataTag line

/-- Lines 374-377: when the delta carries content, append it to the
accumulator and push exactly the new fragment to the callback. -/
def applyContent : Option (List Char) → StreamState → StreamState
  | some d, st =>
    { st with content := st.content ++ d
              callbackLog := st.callbackLog ++ [d] }
  | none, st => st

/-- Lines 379-381: `extend` the tool-call vector with the delta's
fragment list. -/
def applyTools : Option (List ToolCall) → StreamState → StreamState
  | some tcs, st => { st with tool_calls := st.tool_calls ++ tcs }
  | none, st => st

/-- Lines 383-385: a present `finish_reason` overwrites the running
value. -/
def applyFinish : Option FinishReason → StreamState → StreamState
  | some r, st => { st with finish_reason := r }
  | none, st => st

/-- Processing one parseable `data: ` payload (lines 372-387): read the
first choice's delta and fold its three components into the state.
Unparseable payloads and empty choice lists leave the state unchanged. -/
def processData (parse : List Char → Option StreamChunk)
    (data : List Char) (st : StreamState) : StreamState :=
  match parse data with
  | none => st
  | some chunk =>
    match chunk.choices.head? with
    | none => st
    | some choice =>
      applyFinish choice.finish_reason
        (applyTools choice.delta.tool_calls
          (applyContent choice.delta.content st))

/-- The inner line loop of `handle_stream` on explicit fuel: split off a
line while one exists; skip lines without the `data: ` prefix; stop —
keeping the rest of the buffer — on `[DONE]` (the source `break` leaves
the inner `while`); otherwise process the payload and continue. -/
def drainLinesFuel (parse : List Char → Option StreamChunk) :
    Nat → StreamState → StreamState
  | 0, st => st
  | fuel + 1, st =>
    match splitLine st.buffer with
    | none => st
    | some (l, rest) =>
      let line := trimChars l
      let st1 := { st with buffer := rest }
      match stripDataTag line with
      | none => drainLinesFuel parse fuel st1
      | some data =>
        if data = doneTag then st1
        else drainLinesFuel parse fuel (processData parse data st1)

/-- Drain all complete lines currently in the buffer. -/
def drainLines (parse : List Char → Option StreamChunk)
    (st : StreamState) : StreamState :=
  drainLinesFuel parse st.buffer.length st

/-- One iteration of the outer loop: `buffer.push_str(&chunk)` then
drain complete lines. -/
def streamStep (parse : List Char → Option StreamChunk)
    (st : StreamState) (chunk : List Char) : StreamState :=
  drainLines parse { st with buffer := st.buffer ++ chunk }

/-- `OpenAIProvider::handle_stream`: the outer
`while let Some(chunk) = stream.try_next()` loop over the transport's
chunks — push each chunk onto the buffer, then drain complete lines. -/
def handle_stream (parse : List Char → Option StreamChunk)
    (chunks : List (List Char)) : StreamState :=
  chunks.foldl (streamStep parse) initStream

/-- Materializing the final `LLMResponse` after the stream is drained
(lines 392-403): empty accumulated tool calls become `None`. -/
def streamResponse (st : StreamState) : LLMResponse :=
  { message :=
      { content := String.mk st.content
        tool_calls :=
          if st.tool_calls.isEmpty then none else some st.tool_calls }
    finish_reason := st.finish_reason }

/-! ### Structural lemmas for the stream machine -/

theorem splitLine_append {l : List Char}
    (h : ∀ c ∈ l, ¬(c = '\n')) (r : List Char) :
    splitLine (l ++ '\n' :: r) = some (l, r) := by
  induction l with
  | nil => simp [splitLine]
  | cons c cs ih =>
    have hc : ¬(c = '\n') := h c (by simp)
    have ihr := ih (fun x hx => h x (by simp [hx]))
    simp [splitLine, hc, ihr]

theorem applyContent_buffer (o : Option (List Char)) (st : StreamState) :
    (applyContent o st).buffer = st.buffer := by
  cases o <;> rfl

theorem applyTools_buffer (o : Option (List ToolCall)) (st : StreamState) :
    (applyTools o st).buffer = st.buffer := by
  cases o <;> rfl

theorem applyFinish_buffer (o : Option FinishReason) (st : StreamState) :
    (applyFinish o st).buffer = st.buffer := by
  cases o <;> rfl

theorem processData_buffer (parse : List Char → Option StreamChunk)
    (data : List Char) (st : StreamState) :
    (processData parse data st).buffer = st.buffer := by
  unfold processData
  split
  · rfl
  · split
    · rfl
    · rw [applyFinish_buffer, applyTools_buffer, applyContent_buffer]

theorem drainLinesFuel_empty (parse : List Char → Option StreamChunk)
    (fuel : Nat) (st : StreamState) (h : st.buffer = []) :
    drainLinesFuel parse fuel st = st := by
  cases fuel with
  | zero => rfl
  | succ n =>
    unfold drainLinesFuel
    rw [h]
    rfl

theorem stripTag_append : ∀ (tag rest : List Char),
    stripTag tag (tag ++ rest) = some rest := by
  intro tag
  induction tag with
  | nil => intro rest; rfl
  | cons t ts ih => intro rest; simp [stripTag, ih rest]

theorem stripDataTag_data (f : List Char) :
    stripDataTag (dataTag ++ f) = some f :=
  stripTag_append dataTag f

/-- One unfold of the inner line loop when a complete line is present. -/
theorem drainLinesFuel_step (parse : List Char → Option StreamChunk)
    (fuel : Nat) (st : StreamState) (l rest : List Char)
    (hsplit : splitLine st.buffer = some (l, rest)) :
    drainLinesFuel parse (fuel + 1) st
      = match stripDataTag (trimChars l) with
        | none => drainLinesFuel parse fuel { st with buffer := rest }
        | some data =>
          if data = doneTag then { st with buffer := rest }
          else drainLinesFuel parse fuel
            (processData parse data { st with buffer := rest }) := by
  conv_lhs => rw [drainLinesFuel]
  rw [hsplit]

/-- A buffered `data: [DONE]` line ends the drain: the states and
accumulators are untouched and the rest of the buffer is left
unprocessed. -/
theorem drainLinesFuel_done (parse : List Char → Option StreamChunk)
    (fuel : Nat) (st : StreamState) (rest : List Char)
    (hsplit : splitLine st.buffer = some (dataTag ++ doneTag, rest)) :
    drainLinesFuel parse (fuel + 1) st = { st with buffer := rest } := by
  rw [drainLinesFuel_step parse fuel st _ rest hsplit]
  have htrim : trimChars (dataTag ++ doneTag) = dataTag ++ doneTag := by
    decide
  rw [htrim, stripDataTag_data]
  simp

/-- `data: [DONE]` at the front of the buffer: draining stops there, the
accumulators are untouched, and whatever follows the `[DONE]` line stays
in the buffer unprocessed. -/
theorem drainLines_done (parse : List Char → Option StreamChunk)
    (rest content : List Char) (tcs : List ToolCall)
    (fin : FinishReason) (log : List (List Char)) :
    drainLines parse
        ⟨(dataTag ++ doneTag) ++ '\n' :: rest, content, tcs, fin, log⟩
      = ⟨rest, content, tcs, fin, log⟩ := by
  have hsplit : splitLine ((dataTag ++ doneTag) ++ '\n' :: rest)
      = some (dataTag ++ doneTag, rest) :=
    splitLine_append (by decide) rest
  have hlen : ((dataTag ++ doneTag) ++ '\n' :: rest).length
      = (rest.length + 12) + 1 := by
    rw [List.length_append, List.length_cons]
    have h12 : (dataTag ++ doneTag).length = 12 := by decide
    rw [h12]
    omega
  unfold drainLines
  rw [show (⟨(dataTag ++ doneTag) ++ '\n' :: rest, content, tcs, fin,
      log⟩ : StreamState).buffer
    = (dataTag ++ doneTag) ++ '\n' :: rest from rfl, hlen]
  exact drainLinesFuel_done parse _ _ rest hsplit

/-- Draining a buffer holding exactly one complete non-`[DONE]` frame
line processes that frame's payload and empties the buffer. -/
theorem drainLines_frame (parse : List Char → Option StreamChunk)
    (f : List Char) (st : StreamState)
    (hbuf : st.buffer = dataTag ++ (f ++ ['\n']))
    (hnl : ∀ c ∈ f, ¬(c = '\n'))
    (htrim : trimChars (dataTag ++ f) = dataTag ++ f)
    (hne : f ≠ doneTag) :
    drainLines parse st = processData parse f { st with buffer := [] } := by
  have hnl2 : ∀ c ∈ dataTag ++ f, ¬(c = '\n') := by
    intro c hc
    rcases List.mem_append.mp hc with h | h
    · revert h
      have : ∀ c ∈ dataTag, ¬(c = '\n') := by decide
      exact this c
    · exact hnl c h
  have hsplit : splitLine st.buffer = some (dataTag ++ f, []) := by
    rw [hbuf, ← List.append_assoc]
    exact splitLine_append hnl2 []
  have hlen : st.buffer.length = (f.length + 6) + 1 := by
    have h6 : dataTag.length = 6 := by decide
    rw [hbuf, ← List.append_assoc, List.length_append, List.length_cons,
      List.length_nil, List.length_append, h6]
    omega
  unfold drainLines
  rw [hlen, drainLinesFuel_step parse _ st _ [] hsplit, htrim,
    stripDataTag_data]
  show (if f = doneTag then _ else _) = _
  rw [if_neg hne]
  exact drainLinesFuel_empty parse _ _
    (by rw [processData_buffer])

/-! ### Per-frame delta extractors -/

/-- The content fragment the first choice of a parsed frame carries. -/
def chunkContentDelta (chunk : StreamChunk) : Option (List Char) :=
  chunk.choices.head?.bind (fun ch => ch.delta.content)

/-- The tool-call fragment list the first choice of a parsed frame
carries. -/
def chunkToolCalls (chunk : StreamChunk) : List ToolCall :=
  (chunk.choices.head?.bind (fun ch => ch.delta.tool_calls)).getD []

/-- The finish reason the first choice of a parsed frame carries. -/
def chunkFinish (chunk : StreamChunk) : Option FinishReason :=
  chunk.choices.head?.bind (fun ch => ch.finish_reason)

/-- Characterization of processing one parsed payload in terms of the
extractors. -/
theorem processData_parsed (parse : List Char → Option StreamChunk)
    (fdata : List Char) (chunk : StreamChunk) (st : StreamState)
    (hp : parse fdata = some chunk) :
    processData parse fdata st
      = { buffer := st.buffer
          content := st.content ++ (chunkContentDelta chunk).getD []
          tool_calls := st.tool_calls ++ chunkToolCalls chunk
          finish_reason := (chunkFinish chunk).getD st.finish_reason
          callbackLog :=
            st.callbackLog ++ (chunkContentDelta chunk).toList } := by
  unfold processData chunkContentDelta chunkToolCalls chunkFinish
  rw [hp]
  show (match chunk.choices.head? with
    | none => st
    | some choice =>
      applyFinish choice.finish_reason
        (applyTools choice.delta.tool_calls
          (applyContent choice.delta.content st))) = _
  cases chunk.choices.head? with
  | none =>
    obtain ⟨b, c, t, fr, lg⟩ := st
    simp
  | some choice =>
    obtain ⟨b, c, t, fr, lg⟩ := st
    obtain ⟨⟨dcon, dtool⟩, dfin⟩ := choice
    cases dcon <;> cases dtool <;> cases dfin <;>
      simp [applyContent, applyTools, applyFinish]

/-- Pushing a chunk onto an empty buffer. -/
theorem streamStep_empty (parse : List Char → Option StreamChunk)
    (chunk content : List Char) (tcs : List ToolCall)
    (fin : FinishReason) (log : List (List Char)) :
    streamStep parse ⟨[], content, tcs, fin, log⟩ chunk
      = drainLines parse ⟨chunk, content, tcs, fin, log⟩ := by
  show drainLines parse ⟨[] ++ chunk, content, tcs, fin, log⟩ = _
  rw [List.nil_append]

/-- Well-formedness of one frame payload for the complete-line encoding:
the parse oracle accepts it, it spans no line boundary, trimming the full
line is the identity, and it is not the terminal `[DONE]`. -/
def WfFrame (parse : List Char → Option StreamChunk)
    (p : List Char × StreamChunk) : Prop :=
  parse p.1 = some p.2 ∧ (∀ c ∈ p.1, ¬(c = '\n')) ∧
    trimChars (dataTag ++ p.1) = dataTag ++ p.1 ∧ p.1 ≠ doneTag

/-- Folding a list of complete well-formed frame lines from a state with
an empty buffer accumulates exactly the per-frame deltas: content is the
concatenation of the content deltas, the callback log is the list of the
content deltas present (one invocation per delta, exactly the new
fragment), the tool-call vector is the concatenation of the fragment
lists in arrival order, and the finish reason is the last one present. -/
theorem foldFrames (parse : List Char → Option StreamChunk) :
    ∀ (pairs : List (List Char × StreamChunk))
      (content : List Char) (tcs : List ToolCall)
      (fin : FinishReason) (log : List (List Char)),
      (∀ p ∈ pairs, WfFrame parse p) →
      List.foldl (streamStep parse)
          ⟨[], content, tcs, fin, log⟩
          (pairs.map (fun p => dataTag ++ (p.1 ++ ['\n'])))
        = ⟨[],
           content ++
             (pairs.map (fun p => (chunkContentDelta p.2).getD [])).flatten,
           tcs ++ (pairs.map (fun p => chunkToolCalls p.2)).flatten,
           pairs.foldl (fun acc p => (chunkFinish p.2).getD acc) fin,
           log ++ pairs.filterMap (fun p => chunkContentDelta p.2)⟩ := by
  intro pairs
  induction pairs with
  | nil =>
    intro content tcs fin log _
    simp
  | cons p ps ih =>
    intro content tcs fin log hwf
    have hp := hwf p (List.mem_cons_self p ps)
    have hps : ∀ q ∈ ps, WfFrame parse q :=
      fun q hq => hwf q (List.mem_cons_of_mem p hq)
    rw [List.map_cons, List.foldl_cons, streamStep_empty]
    have hframe := drainLines_frame parse p.1
      ⟨dataTag ++ (p.1 ++ ['\n']), content, tcs, fin, log⟩ rfl
      hp.2.1 hp.2.2.1 hp.2.2.2
    rw [hframe,
      processData_parsed parse p.1 p.2 _ hp.1]
    show List.foldl (streamStep parse)
        ⟨[], content ++ (chunkContentDelta p.2).getD [],
         tcs ++ chunkToolCalls p.2, (chunkFinish p.2).getD fin,
         log ++ (chunkContentDelta p.2).toList⟩
        (ps.map (fun q => dataTag ++ (q.1 ++ ['\n']))) = _
    rw [ih _ _ _ _ hps]
    simp only [List.flatten_cons, List.map_cons, List.foldl_cons,
      List.filterMap_cons]
    cases hcd : chunkContentDelta p.2 <;>
      simp [List.append_assoc]

theorem flatten_filterMap_getD {α β : Type} (f : α → Option (List β)) :
    ∀ l : List α,
      (l.filterMap f).flatten = (l.map (fun a => (f a).getD [])).flatten := by
  intro l
  induction l with
  | nil => rfl
  | cons a as ih =>
    rw [List.filterMap_cons, List.map_cons, List.flatten_cons]
    cases f a <;> simp [ih]

/-! ## C7: streaming reconstruction -/

/-- C7 (as amended): for a stream of complete well-formed frame lines,
the final content is the concatenation S of the parseable frames' content
deltas; the callback is invoked once per content-carrying delta with
exactly the new fragment, in emission order, so its fragments also
concatenate to S; the finish reason is the last one present (starting
from `Stop`).  Tool-call fragments, however, are `extend`ed onto the
vector as separate entries in arrival order — fragments of one logical
call split across frames are NOT merged by index. -/
theorem streaming_reconstruction (parse : List Char → Option StreamChunk)
    (pairs : List (List Char × StreamChunk))
    (hwf : ∀ p ∈ pairs, WfFrame parse p) :
    handle_stream parse (pairs.map (fun p => dataTag ++ (p.1 ++ ['\n'])))
      = ⟨[],
         (pairs.map (fun p => (chunkContentDelta p.2).getD [])).flatten,
         (pairs.map (fun p => chunkToolCalls p.2)).flatten,
         pairs.foldl (fun acc p => (chunkFinish p.2).getD acc)
           FinishReason.stop,
         pairs.filterMap (fun p => chunkContentDelta p.2)⟩ ∧
    (handle_stream parse
        (pairs.map (fun p => dataTag ++ (p.1 ++ ['\n'])))).callbackLog.flatten
      = (handle_stream parse
          (pairs.map (fun p => dataTag ++ (p.1 ++ ['\n'])))).content := by
  have h := foldFrames parse pairs [] [] FinishReason.stop [] hwf
  have hmain : handle_stream parse
      (pairs.map (fun p => dataTag ++ (p.1 ++ ['\n'])))
      = ⟨[],
         (pairs.map (fun p => (chunkContentDelta p.2).getD [])).flatten,
         (pairs.map (fun p => chunkToolCalls p.2)).flatten,
         pairs.foldl (fun acc p => (chunkFinish p.2).getD acc)
           FinishReason.stop,
         pairs.filterMap (fun p => chunkContentDelta p.2)⟩ := by
    show List.foldl (streamStep parse) initStream _ = _
    rw [show initStream
      = (⟨[], [], [], FinishReason.stop, []⟩ : StreamState) from rfl, h]
    simp
  refine ⟨hmain, ?_⟩
  rw [hmain]
  exact flatten_filterMap_getD _ pairs

/-- A frame whose delta carries content `"x"` and nothing else. -/
def xChunk : StreamChunk :=
  ⟨[⟨⟨some "x".data, none⟩, none⟩]⟩

/-- A parse oracle accepting exactly the payload `x`. -/
def xParse : List Char → Option StreamChunk :=
  fun l => if l = "x".data then some xChunk else none

/-- Witness for C7 at one concrete content frame. -/
theorem streaming_reconstruction_witness :
    (handle_stream xParse
      [dataTag ++ ("x".data ++ ['\n'])]).content = "x".data := by
  have h := (streaming_reconstruction xParse [("x".data, xChunk)]
    (by
      intro p hp
      rw [List.mem_singleton] at hp
      subst hp
      refine ⟨?_, ?_, ?_, ?_⟩ <;> decide)).1
  have hmap : ([("x".data, xChunk)].map
      (fun p => dataTag ++ (p.1 ++ ['\n'])))
      = [dataTag ++ ("x".data ++ ['\n'])] := rfl
  rw [hmap] at h
  rw [h]
  decide

/-- The first fragment of a split tool call: the provider opened the
arguments string. -/
def fragChunkA : StreamChunk :=
  ⟨[⟨⟨none, some [⟨"call_1", "function", ⟨"get", "\x7b\"a\""⟩⟩]⟩, none⟩]⟩

/-- The continuation fragment of the same logical call, as providers
send it: empty id and name, the rest of the arguments string. -/
def fragChunkB : StreamChunk :=
  ⟨[⟨⟨none, some [⟨"", "", ⟨"", ":1\x7d"⟩⟩]⟩, none⟩]⟩

/-- The same call unsplit, in a single frame. -/
def fragChunkU : StreamChunk :=
  ⟨[⟨⟨none, some [⟨"call_1", "function", ⟨"get", "\x7b\"a\":1\x7d"⟩⟩]⟩,
    none⟩]⟩

/-- A parse oracle for the three fragment payloads `A`, `B`, `U`. -/
def fragParse : List Char → Option StreamChunk :=
  fun l =>
    if l = "A".data then some fragChunkA
    else if l = "B".data then some fragChunkB
    else if l = "U".data then some fragChunkU
    else none

/-- Counterexample to C7 as stated: one logical tool call whose
`arguments` string is split across two frames is accumulated as two
separate `ToolCall` entries, not reassembled; the result differs from the
unsplit case (which yields one entry with the full JSON). -/
theorem streaming_toolcall_fragments_counterexample :
    (handle_stream fragParse
      ["data: A\n".data, "data: B\n".data]).tool_calls.length = 2 ∧
    (handle_stream fragParse ["data: U\n".data]).tool_calls.length = 1 ∧
    (handle_stream fragParse
        ["data: A\n".data, "data: B\n".data]).tool_calls
      ≠ (handle_stream fragParse ["data: U\n".data]).tool_calls := by
  refine ⟨?_, ?_, ?_⟩ <;> decide

/-! ## C8: what `data: [DONE]` actually ends -/

/-- C8 (as amended): a `[DONE]` frame ends only the inner line-draining
loop: the lines already buffered behind it are left unprocessed for now
and the accumulators are untouched — but the outer loop keeps reading the
transport, so chunks delivered after a `[DONE]` are buffered and drained
normally (the stream only truly ends when the transport is exhausted). -/
theorem done_breaks_inner_loop_only
    (parse : List Char → Option StreamChunk)
    (rest content : List Char) (tcs : List ToolCall)
    (fin : FinishReason) (log : List (List Char))
    (chunks : List (List Char)) (chunk : List Char) :
    (drainLines parse
        ⟨(dataTag ++ doneTag) ++ '\n' :: rest, content, tcs, fin, log⟩
      = ⟨rest, content, tcs, fin, log⟩) ∧
    (handle_stream parse (chunks ++ [chunk])
      = streamStep parse (handle_stream parse chunks) chunk) := by
  refine ⟨drainLines_done parse rest content tcs fin log, ?_⟩
  show List.foldl (streamStep parse) initStream (chunks ++ [chunk]) = _
  rw [List.foldl_append]
  rfl

/-- Counterexample to C8 as stated: a frame delivered in a chunk after
the `data: [DONE]` frame still contributes to the content and the
callback is invoked again for it. -/
theorem done_not_terminal_counterexample :
    (handle_stream xParse
      ["data: [DONE]\n".data, "data: x\n".data]).content = "x".data ∧
    (handle_stream xParse
      ["data: [DONE]\n".data, "data: x\n".data]).callbackLog
      = ["x".data] := by
  refine ⟨?_, ?_⟩ <;> decide

/-! ## C9: JSON-schema metadata stripping

A JSON object (`serde_json::Map<String, Value>`, unique keys) is
modelled as a key-value list with abstract values; `Map::remove`
removes the entry with the given key.  Two strippers exist in the
source: `strip_schema_metadata` (`tool.rs` lines 14-21) removes only
`$schema` and `title`, while `Parameters::from_object`
(`types/tool.rs` lines 30-39) removes `$schema`, `title` and
`description`. -/

/-- `serde_json::Map::remove(k)`. -/
def removeKey {α : Type} (k : String) (obj : List (String × α)) :
    List (String × α) :=
  obj.filter (fun p => p.1 ≠ k)

/-- `strip_schema_metadata` (`tool.rs` lines 14-21): removes `$schema`
then `title` — and nothing else. -/
def strip_schema_metadata {α : Type} (obj : List (String × α)) :
    List (String × α) :=
  removeKey "title" (removeKey "$schema" obj)

/-- `Parameters::from_object` (`types/tool.rs` lines 30-39): removes
`$schema`, `title` and `description`. -/
def Parameters.from_object {α : Type} (obj : List (String × α)) :
    List (String × α) :=
  removeKey "description" (removeKey "title" (removeKey "$schema" obj))

theorem not_mem_removeKey {α : Type} (k : String)
    (obj : List (String × α)) :
    k ∉ (removeKey k obj).map (fun p => p.1) := by
  intro h
  rcases List.mem_map.mp h with ⟨p, hp, hk⟩
  rcases List.mem_filter.mp hp with ⟨_, hne⟩
  simp at hne
  exact hne hk

theorem mem_map_fst_of_removeKey {α : Type} (k2 k : String)
    (obj : List (String × α))
    (h : k ∈ (removeKey k2 obj).map (fun p => p.1)) :
    k ∈ obj.map (fun p => p.1) := by
  rcases List.mem_map.mp h with ⟨p, hp, hk⟩
  exact hk ▸ List.mem_map_of_mem _ (List.mem_filter.mp hp).1

/-- Counterexample to C9 as stated: on the `strip_schema_metadata` path
a schema carrying all three metadata keys keeps its `description` entry
— only `$schema` and `title` are removed there. -/
theorem strip_keeps_description_counterexample :
    ("description", 2) ∈ strip_schema_metadata
      [("$schema", 0), ("title", 1), ("description", 2), ("type", 3)] ∧
    strip_schema_metadata
      [("$schema", 0), ("title", 1), ("description", 2), ("type", 3)]
      = [("description", 2), ("type", 3)] := by
  refine ⟨?_, ?_⟩ <;> decide

/-- C9 (as amended): `Parameters::from_object` removes all three
top-level metadata keys `$schema`, `title` and `description` from every
schema object before it becomes a `ToolDefinition`'s parameters, while
the `strip_schema_metadata` helper removes only `$schema` and `title`,
leaving every `description` entry in place. -/
theorem schema_metadata_stripping {α : Type} (obj : List (String × α)) :
    "$schema" ∉ (Parameters.from_object obj).map (fun p => p.1) ∧
    "title" ∉ (Parameters.from_object obj).map (fun p => p.1) ∧
    "description" ∉ (Parameters.from_object obj).map (fun p => p.1) ∧
    "$schema" ∉ (strip_schema_metadata obj).map (fun p => p.1) ∧
    "title" ∉ (strip_schema_metadata obj).map (fun p => p.1) ∧
    (∀ v : α, ("description", v) ∈ obj →
      ("description", v) ∈ strip_schema_metadata obj) := by
  unfold Parameters.from_object strip_schema_metadata
  refine ⟨?_, ?_, not_mem_removeKey _ _, ?_, not_mem_removeKey _ _, ?_⟩
  · intro h
    exact not_mem_removeKey "$schema" obj
      (mem_map_fst_of_removeKey "title" _ _
        (mem_map_fst_of_removeKey "description" _ _ h))
  · intro h
    exact not_mem_removeKey "title" (removeKey "$schema" obj)
      (mem_map_fst_of_removeKey "description" _ _ h)
  · intro h
    exact not_mem_removeKey "$schema" obj
      (mem_map_fst_of_removeKey "title" _ _ h)
  · intro v hv
    refine List.mem_filter.mpr ⟨List.mem_filter.mpr ⟨hv, ?_⟩, ?_⟩ <;>
      simp

/-- Witness for C9 at a concrete schema object. -/
theorem schema_metadata_stripping_witness :
    ("description", 2) ∈ strip_schema_metadata
      [("$schema", 0), ("title", 1), ("description", 2), ("type", 3)] :=
  (schema_metadata_stripping
    [("$schema", 0), ("title", 1), ("description", 2),
     ("type", 3)]).2.2.2.2.2 2 (by decide)

end TinyLoop
